import Mathlib

/-!
# Verification of the `portfolio` stock-summary utility

Shallow embedding of `src/lib.rs` and `src/bin.rs` of the `jacobh/portfolio`
repository.

Modelling conventions:

* `f64` price values are modelled by `F64`: either an exact rational value or
  `nan`.  The source performs no floating-point arithmetic on prices — it only
  compares them (`f64_ord_panic`) and copies them around — so rationals plus an
  explicit NaN constructor capture its observable comparison behaviour.
* `chrono::NaiveDate` is modelled as `ℤ`, a count of days (the civil calendar
  is linearly ordered and `date + Duration::days(n)` is addition of `n` days).
  `chrono::Utc::now().date().naive_local()` is nondeterministic, so the model
  takes the `today` anchor as an explicit parameter.
* `HashMap<NaiveDate, TimeSeriesDay>` is modelled as a `List (ℤ × TimeSeriesDay)`
  holding the entries in some iteration order; the unordered nature of the map
  is captured by quantifying over permutations of that list.
* Rust panics (`Option::unwrap` on `None`, and the `panic!` inside
  `f64_ord_panic`) abort the process; they are modelled by the `Except PanicKind`
  monad, with a distinct `PanicKind` per panic site.  A `.error` result of this
  monad is a process abort, not a value of the library's `Result` error type
  `ApiError`.
* The network fetch (`get_time_series_daily`) is abstracted by a total function
  `fetch : Symbol → DailyOutputSize → TimeSeries` supplied by the environment;
  the query-parameter list the request would carry is modelled separately by
  `queryParams`.  Transport failures are out of scope of the claims settled here.
-/

namespace Portfolio

/-- Model of a Rust `f64` price: an exact rational, or NaN.  The source only
ever compares prices, so this carries exactly the information those
comparisons observe. -/
inductive F64 where
  | val (q : ℚ)
  | nan
deriving DecidableEq, Repr

/-- `a > b` on `f64`: false whenever either side is NaN. -/
def fgt : F64 → F64 → Bool
  | .val a, .val b => decide (b < a)
  | _, _ => false

/-- `a < b` on `f64`: false whenever either side is NaN. -/
def flt : F64 → F64 → Bool
  | .val a, .val b => decide (a < b)
  | _, _ => false

/-- `a == b` on `f64`: false whenever either side is NaN (`NaN != NaN`). -/
def feq : F64 → F64 → Bool
  | .val a, .val b => decide (a = b)
  | _, _ => false

/-- `a <= b` on `f64` (used only in specification statements). -/
def fle : F64 → F64 → Bool
  | .val a, .val b => decide (a ≤ b)
  | _, _ => false

/-- The two panic sites of the source: `Option::unwrap` on `None`, and the
`panic!("input must be comparable")` inside `f64_ord_panic`. -/
inductive PanicKind where
  | unwrapNone
  | nonComparable
deriving DecidableEq, Repr

/-- `Option::unwrap`: panics on `None`. -/
def unwrapO {α : Type} : Option α → Except PanicKind α
  | some a => .ok a
  | none => .error .unwrapNone

/-- `fn f64_ord_panic(a: &f64, b: &f64) -> Ordering` of `src/lib.rs`:
greater / less / equal by the `f64` comparisons, and a panic (`none`) when the
operands are not comparable (some side is NaN). -/
def f64_ord_panic (a b : F64) : Option Ordering :=
  if fgt a b then some .gt
  else if flt a b then some .lt
  else if feq a b then some .eq
  else none

/-- `struct TimeSeriesDay` of `src/lib.rs`: one trading day's record.  The
`open` field is named `openPrice` because `open` is a Lean keyword. -/
structure TimeSeriesDay where
  openPrice : F64
  high : F64
  low : F64
  close : F64
  adjusted_close : F64
  volume : F64
  dividend_amount : F64
  split_coefficient : F64
deriving DecidableEq, Repr

/-- The parsed `"Time Series (Daily)"` map, in some iteration order. -/
abbrev TimeSeries := List (ℤ × TimeSeriesDay)

/-- `pub struct Symbol(String)` of `src/lib.rs`. -/
structure Symbol where
  str : String
deriving DecidableEq, Repr

/-- `Symbol::new`: wraps the given string with no validation. -/
def Symbol.new (s : String) : Symbol := ⟨s⟩

/-- The `impl<S> From<S> for Symbol` conversion: delegates to `Symbol::new`. -/
def Symbol.fromString (s : String) : Symbol := Symbol.new s

/-- `enum DailyOutputSize` of `src/lib.rs`. -/
inductive DailyOutputSize where
  | Compact
  | Full
deriving DecidableEq, Repr

/-- `DailyOutputSize::as_str`. -/
def DailyOutputSize.as_str : DailyOutputSize → String
  | .Compact => "compact"
  | .Full => "full"

/-- `pub enum ApiError` of `src/lib.rs`: its only variant wraps a transport
error.  There is no variant for an empty result or a non-orderable value. -/
inductive ApiError where
  | Reqwest
deriving DecidableEq, Repr

/-- `pub enum TimePeriod` of `src/lib.rs`. -/
inductive TimePeriod where
  | Month
  | Year
  | AllTime
deriving DecidableEq, Repr

/-- `pub struct EquitySummary` of `src/lib.rs`. -/
structure EquitySummary where
  latest_price : F64
  earliest_price : F64
  max_price : F64
  min_price : F64
deriving DecidableEq, Repr

/-- The query-parameter list built by `get_time_series_daily` in
`src/lib.rs`.  The API key comes from the process environment; it is passed in
here as a parameter. -/
def queryParams (apikey : String) (symbol : Symbol) (output_size : DailyOutputSize) :
    List (String × String) :=
  [("function", "TIME_SERIES_DAILY_ADJUSTED"),
   ("symbol", symbol.str),
   ("apikey", apikey),
   ("outputsize", output_size.as_str)]

/-- Fold step of Rust `Iterator::max_by_key` on date keys: when several
elements are equally maximal the last one wins. -/
def maxByKeyGo (acc : ℤ × TimeSeriesDay) : TimeSeries → ℤ × TimeSeriesDay
  | [] => acc
  | x :: xs => maxByKeyGo (if acc.1 ≤ x.1 then x else acc) xs

/-- Rust `iter().max_by_key(|&(date, _)| date)`: `none` on an empty iterator. -/
def maxByKeyDate : TimeSeries → Option (ℤ × TimeSeriesDay)
  | [] => none
  | x :: xs => some (maxByKeyGo x xs)

/-- Fold step of Rust `Iterator::min_by_key` on date keys: when several
elements are equally minimal the first one wins. -/
def minByKeyGo (acc : ℤ × TimeSeriesDay) : TimeSeries → ℤ × TimeSeriesDay
  | [] => acc
  | x :: xs => minByKeyGo (if x.1 < acc.1 then x else acc) xs

/-- Rust `iter().min_by_key(|&(date, _)| date)`: `none` on an empty iterator. -/
def minByKeyDate : TimeSeries → Option (ℤ × TimeSeriesDay)
  | [] => none
  | x :: xs => some (minByKeyGo x xs)

/-- One step of `Iterator::max_by(f64_ord_panic)`: keep the accumulator only
when it compares strictly greater (ties keep the later element); propagate the
comparator's panic. -/
def maxByStep (acc x : F64) : Except PanicKind F64 :=
  match f64_ord_panic acc x with
  | none => .error .nonComparable
  | some .gt => .ok acc
  | some _ => .ok x

/-- Fold of `Iterator::max_by(f64_ord_panic)` over the remaining elements. -/
def maxByGo (acc : F64) : List F64 → Except PanicKind F64
  | [] => .ok acc
  | x :: xs =>
    match maxByStep acc x with
    | .error e => .error e
    | .ok a => maxByGo a xs

/-- Rust `iter().max_by(f64_ord_panic)`: `ok none` on an empty iterator,
otherwise the fold from the first element. -/
def maxByF : List F64 → Except PanicKind (Option F64)
  | [] => .ok none
  | x :: xs =>
    match maxByGo x xs with
    | .error e => .error e
    | .ok a => .ok (some a)

/-- One step of `Iterator::min_by(f64_ord_panic)`: ties keep the earlier
element. -/
def minByStep (acc x : F64) : Except PanicKind F64 :=
  match f64_ord_panic acc x with
  | none => .error .nonComparable
  | some .gt => .ok x
  | some _ => .ok acc

/-- Fold of `Iterator::min_by(f64_ord_panic)` over the remaining elements. -/
def minByGo (acc : F64) : List F64 → Except PanicKind F64
  | [] => .ok acc
  | x :: xs =>
    match minByStep acc x with
    | .error e => .error e
    | .ok a => minByGo a xs

/-- Rust `iter().min_by(f64_ord_panic)`. -/
def minByF : List F64 → Except PanicKind (Option F64)
  | [] => .ok none
  | x :: xs =>
    match minByGo x xs with
    | .error e => .error e
    | .ok a => .ok (some a)

/-- The date filter closure inside `summary_for_equity`:
`Month → date + 30 days >= today`, `Year → date + 365 days >= today`,
`AllTime → true`. -/
def keepEntry (time_period : TimePeriod) (today : ℤ) (date : ℤ) : Bool :=
  match time_period with
  | .Month => decide (date + 30 ≥ today)
  | .Year => decide (date + 365 ≥ today)
  | .AllTime => true

/-- The `filter(...).collect()` stage of `summary_for_equity`: the retained
entries of the fetched series. -/
def filteredSeries (time_series : TimeSeries) (time_period : TimePeriod) (today : ℤ) :
    TimeSeries :=
  time_series.filter (fun e => keepEntry time_period today e.1)

/-- `pub fn get_latest_price_for_equity` of `src/lib.rs`: fetch the compact
daily series and return the close of the maximum-date entry, `unwrap`ping the
(possibly empty) reduction. -/
def get_latest_price_for_equity (fetch : Symbol → DailyOutputSize → TimeSeries)
    (symbol : Symbol) : Except PanicKind F64 :=
  unwrapO ((maxByKeyDate (fetch symbol .Compact)).map (fun e => e.2.close))

/-- `pub fn summary_for_equity` of `src/lib.rs`: fetch the full daily series,
filter it by the time period anchored at `today`, and build the summary by four
`unwrap`ped reductions, evaluated in the source's field order
(latest, earliest, max, min). -/
def summary_for_equity (fetch : Symbol → DailyOutputSize → TimeSeries)
    (symbol : Symbol) (time_period : TimePeriod) (today : ℤ) :
    Except PanicKind EquitySummary :=
  let time_series := fetch symbol .Full
  let ts := filteredSeries time_series time_period today
  do
    let latest_price ← unwrapO ((maxByKeyDate ts).map (fun e => e.2.close))
    let earliest_price ← unwrapO ((minByKeyDate ts).map (fun e => e.2.close))
    let max_price ← do unwrapO (← maxByF (ts.map (fun e => e.2.high)))
    let min_price ← do unwrapO (← minByF (ts.map (fun e => e.2.low)))
    return { latest_price := latest_price, earliest_price := earliest_price,
             max_price := max_price, min_price := min_price }

/-! ## JSON parsing model

`TimeSeriesDay` and `TimeSeriesDailyResponse` derive `serde::Deserialize`; the
definitions below embed the declarative parsing behaviour of those derives:
renamed fields, `deserialize_number_from_string` (from `serde_aux`) on every
numeric field of a day record, a required `"Meta Data"` field accepted as any
JSON value, and a required `"Time Series (Daily)"` object whose keys are
`chrono::NaiveDate`s.  Failure is `none`. -/

/-- A JSON value.  Numbers are modelled as exact rationals. -/
inductive Json where
  | null
  | bool (b : Bool)
  | num (q : ℚ)
  | str (s : String)
  | arr (elems : List Json)
  | obj (fields : List (String × Json))

/-- Value of a nonempty digit string. -/
def digitsVal (l : List Char) : ℕ :=
  l.foldl (fun a c => 10 * a + (c.toNat - 48)) 0

/-- Unsigned decimal literal: digits with an optional fractional part
(`"12345"`, `"1."`, `".5"`, `"99.5"`).  This models the finite-decimal
fragment of Rust's `f64::from_str` grammar, which is the shape the upstream
API emits; exponents and the infinity/NaN spellings are outside the model. -/
def parseUnsignedDec (l : List Char) : Option ℚ :=
  let intPart := l.takeWhile Char.isDigit
  let rest := l.dropWhile Char.isDigit
  match rest with
  | [] => if intPart.isEmpty then none else some (digitsVal intPart)
  | '.' :: fracPart =>
    if fracPart.all Char.isDigit ∧ ¬(intPart.isEmpty ∧ fracPart.isEmpty) then
      some ((digitsVal intPart : ℚ) + (digitsVal fracPart : ℚ) / (10 : ℚ) ^ fracPart.length)
    else none
  | _ => none

/-- Signed decimal literal. -/
def parseDecimal (s : String) : Option ℚ :=
  match s.data with
  | '-' :: rest => (parseUnsignedDec rest).map (fun q => -q)
  | '+' :: rest => parseUnsignedDec rest
  | l => parseUnsignedDec l

/-- `serde_aux::field_attributes::deserialize_number_from_string`: accept a
JSON number as-is, or coerce a string-encoded decimal; anything else (or an
unparseable string) is a parse failure. -/
def deserialize_number_from_string : Json → Option F64
  | .num q => some (.val q)
  | .str s => (parseDecimal s).map .val
  | _ => none

/-- The eight renamed numeric fields a `TimeSeriesDay` requires. -/
def requiredDayFields : List String :=
  ["1. open", "2. high", "3. low", "4. close",
   "5. adjusted close", "6. volume", "7. dividend amount", "8. split coefficient"]

/-- Look up a required field and run `deserialize_number_from_string` on it. -/
def numField (fields : List (String × Json)) (name : String) : Option F64 :=
  (List.lookup name fields).bind deserialize_number_from_string

/-- The derived `Deserialize` of `struct TimeSeriesDay`: an object whose eight
renamed fields all deserialize through `deserialize_number_from_string`. -/
def TimeSeriesDay.deserialize : Json → Option TimeSeriesDay
  | .obj fields => do
    let o ← numField fields "1. open"
    let h ← numField fields "2. high"
    let l ← numField fields "3. low"
    let c ← numField fields "4. close"
    let ac ← numField fields "5. adjusted close"
    let v ← numField fields "6. volume"
    let da ← numField fields "7. dividend amount"
    let sc ← numField fields "8. split coefficient"
    some ⟨o, h, l, c, ac, v, da, sc⟩
  | _ => none

/-- Gregorian leap year. -/
def isLeap (y : ℤ) : Bool := (y % 4 == 0 && y % 100 != 0) || y % 400 == 0

/-- Days in a Gregorian month. -/
def daysInMonth (y m : ℤ) : ℤ :=
  if m = 2 then (if isLeap y then 29 else 28)
  else if m = 4 ∨ m = 6 ∨ m = 9 ∨ m = 11 then 30
  else 31

/-- Civil date to days since 1970-01-01 (proleptic Gregorian). -/
def civilToDays (y m d : ℤ) : ℤ :=
  let y' := y - (if m ≤ 2 then 1 else 0)
  let era := Int.fdiv y' 400
  let yoe := y' - era * 400
  let mp := (m + 9) % 12
  let doy := Int.fdiv (153 * mp + 2) 5 + d - 1
  let doe := yoe * 365 + Int.fdiv yoe 4 - Int.fdiv yoe 100 + doy
  era * 146097 + doe - 719468

/-- Two ASCII digits to a number, if both are digits. -/
def twoDigits (a b : Char) : Option ℤ :=
  if a.isDigit ∧ b.isDigit then some ((10 * (a.toNat - 48) + (b.toNat - 48) : ℕ) : ℤ)
  else none

/-- `chrono::NaiveDate`'s `Deserialize` on the upstream `"YYYY-MM-DD"` keys:
four year digits, two month digits, two day digits, checked against the civil
calendar; the result is the day count since 1970-01-01. -/
def parseDate (s : String) : Option ℤ :=
  match s.data with
  | [y1, y2, y3, y4, '-', m1, m2, '-', d1, d2] =>
    if [y1, y2, y3, y4].all Char.isDigit then do
      let y : ℤ := (digitsVal [y1, y2, y3, y4] : ℕ)
      let m ← twoDigits m1 m2
      let d ← twoDigits d1 d2
      if 1 ≤ m ∧ m ≤ 12 ∧ 1 ≤ d ∧ d ≤ daysInMonth y m then some (civilToDays y m d)
      else none
    else none
  | _ => none

/-- Deserialize the entries of the `"Time Series (Daily)"` object: every key
must parse as a date and every value as a `TimeSeriesDay`; any single failure
fails the whole map. -/
def parseEntries : List (String × Json) → Option TimeSeries
  | [] => some []
  | (k, v) :: rest => do
    let d ← parseDate k
    let day ← TimeSeriesDay.deserialize v
    let tail ← parseEntries rest
    some ((d, day) :: tail)

/-- `struct TimeSeriesDailyResponse` of `src/lib.rs`. -/
structure TimeSeriesDailyResponse where
  metadata : Json
  time_series : TimeSeries

/-- The derived `Deserialize` of `TimeSeriesDailyResponse`: requires a
`"Meta Data"` field (any JSON value, it is a `serde_json::Value`) and a
`"Time Series (Daily)"` object of day records. -/
def TimeSeriesDailyResponse.deserialize : Json → Option TimeSeriesDailyResponse
  | .obj fields => do
    let md ← List.lookup "Meta Data" fields
    let tsJson ← List.lookup "Time Series (Daily)" fields
    match tsJson with
    | .obj entries => (parseEntries entries).map (fun ts => ⟨md, ts⟩)
    | _ => none
  | _ => none

/-! ## Command-line surface (`src/bin.rs`) -/

/-- One `println!` of `main`: either the `"{}: {}"` price line, the `"{:?}"`
debug line of a summary, or the literal `"Command not recognised"` message. -/
inductive OutputLine where
  | priceLine (symbol : String) (price : F64)
  | summaryLine (s : EquitySummary)
  | commandNotRecognised
deriving DecidableEq, Repr

/-- A call `main` makes into the library. -/
inductive LibCall where
  | latestPrice (symbol : String)
  | summaryCall (symbol : String) (time_period : TimePeriod)
deriving DecidableEq, Repr

instance instDecEqExcept {ε α : Type} [DecidableEq ε] [DecidableEq α] :
    DecidableEq (Except ε α)
  | .ok a, .ok b =>
    if h : a = b then .isTrue (by rw [h]) else .isFalse (by simp [h])
  | .ok _, .error _ => .isFalse (by simp)
  | .error _, .ok _ => .isFalse (by simp)
  | .error a, .error b =>
    if h : a = b then .isTrue (by rw [h]) else .isFalse (by simp [h])

/-- One run of `main`: the library calls it issues, and either a normal
result (printed lines and the process exit code, `0` on the path through the
end of `main`) or a panic (the `.unwrap()` / library panics). -/
structure MainRun where
  calls : List LibCall
  result : Except PanicKind (List OutputLine × ℕ)
deriving DecidableEq, Repr

/-- `fn main` of `src/bin.rs`, as a function of the parsed subcommand
`(name, symbol argument)`.  The `clap` declaration marks `symbol` as required,
so the two recognised arms receive `some`; every other match result falls to
the catch-all arm, which prints `"Command not recognised"` and lets `main`
return normally (exit status 0). -/
def mainRun (fetch : Symbol → DailyOutputSize → TimeSeries) (today : ℤ)
    (sub : String × Option String) : MainRun :=
  match sub with
  | ("latest-price", some symbol) =>
    { calls := [.latestPrice symbol],
      result := (get_latest_price_for_equity fetch (Symbol.new symbol)).map
        (fun price => ([.priceLine symbol price], 0)) }
  | ("summary", some symbol) =>
    { calls := [.summaryCall symbol .Year],
      result := (summary_for_equity fetch (Symbol.new symbol) .Year today).map
        (fun s => ([.summaryLine s], 0)) }
  | _ => { calls := [], result := .ok ([.commandNotRecognised], 0) }

/-! ## Concrete sample data used by scenario statements -/

/-- A day record with the given open/high/low/close (adjusted close = close,
volume 0, no dividend, split coefficient 1). -/
def sampleDay (o h l c : ℚ) : TimeSeriesDay :=
  ⟨.val o, .val h, .val l, .val c, .val c, .val 0, .val 0, .val 1⟩

/-- The spec scenario's 2024-01-01 record (day 19723 since 1970-01-01). -/
def scenarioDay1 : TimeSeriesDay := sampleDay 100 110 90 100

/-- The spec scenario's 2024-01-10 record (day 19732 since 1970-01-01). -/
def scenarioDay2 : TimeSeriesDay := sampleDay 120 125 95 120

/-- The spec scenario's two-entry time series. -/
def scenarioSeries : TimeSeries := [(19723, scenarioDay1), (19732, scenarioDay2)]

/-- A record whose `high` is NaN. -/
def nanHighDay : TimeSeriesDay :=
  ⟨.val 1, .nan, .val 1, .val 1, .val 1, .val 0, .val 0, .val 1⟩

/-- A well-formed upstream day record whose `volume` is the JSON string
`"12345"`. -/
def sampleDayJson : Json := .obj
  [("1. open", .str "100.0"), ("2. high", .str "110"), ("3. low", .str "90"),
   ("4. close", .str "100"), ("5. adjusted close", .str "99.5"),
   ("6. volume", .str "12345"), ("7. dividend amount", .num 0),
   ("8. split coefficient", .str "1.0")]

/-- A day record whose `volume` field holds a non-numeric string. -/
def badVolumeDayJson : Json := .obj
  [("1. open", .str "100.0"), ("2. high", .str "110"), ("3. low", .str "90"),
   ("4. close", .str "100"), ("5. adjusted close", .str "99.5"),
   ("6. volume", .str "abc"), ("7. dividend amount", .num 0),
   ("8. split coefficient", .str "1.0")]

/-! ## Helper lemmas: comparison model -/

theorem fle_val {u v : ℚ} : fle (.val u) (.val v) = true ↔ u ≤ v := by
  simp [fle]

theorem f64_ord_panic_nan_left (x : F64) : f64_ord_panic .nan x = none := by
  cases x <;> rfl

theorem f64_ord_panic_nan_right (x : F64) : f64_ord_panic x .nan = none := by
  cases x <;> rfl

theorem maxByStep_val (a b : ℚ) : maxByStep (.val a) (.val b) = .ok (.val (max a b)) := by
  by_cases h1 : b < a
  · simp [maxByStep, f64_ord_panic, fgt, flt, feq, h1, max_eq_left h1.le]
  · by_cases h2 : a < b
    · simp [maxByStep, f64_ord_panic, fgt, flt, feq, h1, h2, max_eq_right h2.le]
    · have h3 : a = b := le_antisymm (not_lt.mp h1) (not_lt.mp h2)
      simp [maxByStep, f64_ord_panic, fgt, flt, feq, h1, h2, h3]

theorem minByStep_val (a b : ℚ) : minByStep (.val a) (.val b) = .ok (.val (min a b)) := by
  by_cases h1 : b < a
  · simp [minByStep, f64_ord_panic, fgt, flt, feq, h1, min_eq_right h1.le]
  · by_cases h2 : a < b
    · simp [minByStep, f64_ord_panic, fgt, flt, feq, h1, h2, min_eq_left h2.le]
    · have h3 : a = b := le_antisymm (not_lt.mp h1) (not_lt.mp h2)
      simp [minByStep, f64_ord_panic, fgt, flt, feq, h1, h2, h3]

/-! ## Helper lemmas: max/min by date key -/

theorem maxByKeyGo_mem (l : TimeSeries) : ∀ acc, maxByKeyGo acc l ∈ acc :: l := by
  induction l with
  | nil => intro acc; simp [maxByKeyGo]
  | cons x xs ih =>
    intro acc
    have h := ih (if acc.1 ≤ x.1 then x else acc)
    simp only [maxByKeyGo]
    rcases List.mem_cons.mp h with h1 | h1
    · rw [h1]; split <;> simp
    · simp [h1]

theorem maxByKeyGo_le (l : TimeSeries) :
    ∀ acc, ∀ y ∈ acc :: l, y.1 ≤ (maxByKeyGo acc l).1 := by
  induction l with
  | nil =>
    intro acc y hy
    rcases List.mem_cons.mp hy with rfl | h
    · simp [maxByKeyGo]
    · simp at h
  | cons x xs ih =>
    intro acc y hy
    simp only [maxByKeyGo]
    have hacc : acc.1 ≤ (if acc.1 ≤ x.1 then x else acc).1 := by
      split
      · assumption
      · exact le_refl _
    have hx : x.1 ≤ (if acc.1 ≤ x.1 then x else acc).1 := by
      split
      · exact le_refl _
      · omega
    rcases List.mem_cons.mp hy with rfl | h1
    · exact le_trans hacc (ih _ _ (List.mem_cons_self _ _))
    · rcases List.mem_cons.mp h1 with rfl | h2
      · exact le_trans hx (ih _ _ (List.mem_cons_self _ _))
      · exact ih _ _ (List.mem_cons_of_mem _ h2)

theorem maxByKeyDate_spec (l : TimeSeries) (hl : l ≠ []) :
    ∃ e, maxByKeyDate l = some e ∧ e ∈ l ∧ ∀ y ∈ l, y.1 ≤ e.1 := by
  cases l with
  | nil => exact absurd rfl hl
  | cons x xs =>
    exact ⟨maxByKeyGo x xs, rfl, maxByKeyGo_mem xs x, fun y hy => maxByKeyGo_le xs x y hy⟩

theorem minByKeyGo_mem (l : TimeSeries) : ∀ acc, minByKeyGo acc l ∈ acc :: l := by
  induction l with
  | nil => intro acc; simp [minByKeyGo]
  | cons x xs ih =>
    intro acc
    have h := ih (if x.1 < acc.1 then x else acc)
    simp only [minByKeyGo]
    rcases List.mem_cons.mp h with h1 | h1
    · rw [h1]; split <;> simp
    · simp [h1]

theorem minByKeyGo_le (l : TimeSeries) :
    ∀ acc, ∀ y ∈ acc :: l, (minByKeyGo acc l).1 ≤ y.1 := by
  induction l with
  | nil =>
    intro acc y hy
    rcases List.mem_cons.mp hy with rfl | h
    · simp [minByKeyGo]
    · simp at h
  | cons x xs ih =>
    intro acc y hy
    simp only [minByKeyGo]
    have hacc : (if x.1 < acc.1 then x else acc).1 ≤ acc.1 := by
      split
      · omega
      · exact le_refl _
    have hx : (if x.1 < acc.1 then x else acc).1 ≤ x.1 := by
      split
      · exact le_refl _
      · omega
    rcases List.mem_cons.mp hy with rfl | h1
    · exact le_trans (ih _ _ (List.mem_cons_self _ _)) hacc
    · rcases List.mem_cons.mp h1 with rfl | h2
      · exact le_trans (ih _ _ (List.mem_cons_self _ _)) hx
      · exact ih _ _ (List.mem_cons_of_mem _ h2)

theorem minByKeyDate_spec (l : TimeSeries) (hl : l ≠ []) :
    ∃ e, minByKeyDate l = some e ∧ e ∈ l ∧ ∀ y ∈ l, e.1 ≤ y.1 := by
  cases l with
  | nil => exact absurd rfl hl
  | cons x xs =>
    exact ⟨minByKeyGo x xs, rfl, minByKeyGo_mem xs x, fun y hy => minByKeyGo_le xs x y hy⟩

/-- Entries of a nodup-keyed list are determined by their keys. -/
theorem key_inj {l : TimeSeries} (hnd : (l.map Prod.fst).Nodup)
    {a b : ℤ × TimeSeriesDay} (ha : a ∈ l) (hb : b ∈ l) (h : a.1 = b.1) : a = b :=
  List.inj_on_of_nodup_map hnd ha hb h

theorem maxByKeyDate_perm {l1 l2 : TimeSeries} (hp : l1.Perm l2)
    (hnd : (l1.map Prod.fst).Nodup) : maxByKeyDate l1 = maxByKeyDate l2 := by
  cases l1 with
  | nil => rw [hp.symm.eq_nil]
  | cons x xs =>
    have h1 : (x :: xs : TimeSeries) ≠ [] := by simp
    have h2 : l2 ≠ [] := by
      intro h
      rw [h] at hp
      exact h1 hp.eq_nil
    obtain ⟨e1, he1, hm1, hb1⟩ := maxByKeyDate_spec _ h1
    obtain ⟨e2, he2, hm2, hb2⟩ := maxByKeyDate_spec l2 h2
    rw [he1, he2]
    have hm2' : e2 ∈ x :: xs := hp.mem_iff.mpr hm2
    have hm1' : e1 ∈ l2 := hp.mem_iff.mp hm1
    have : e1 = e2 := key_inj hnd hm1 hm2' (le_antisymm (hb2 e1 hm1') (hb1 e2 hm2'))
    rw [this]

theorem minByKeyDate_perm {l1 l2 : TimeSeries} (hp : l1.Perm l2)
    (hnd : (l1.map Prod.fst).Nodup) : minByKeyDate l1 = minByKeyDate l2 := by
  cases l1 with
  | nil => rw [hp.symm.eq_nil]
  | cons x xs =>
    have h1 : (x :: xs : TimeSeries) ≠ [] := by simp
    have h2 : l2 ≠ [] := by
      intro h
      rw [h] at hp
      exact h1 hp.eq_nil
    obtain ⟨e1, he1, hm1, hb1⟩ := minByKeyDate_spec _ h1
    obtain ⟨e2, he2, hm2, hb2⟩ := minByKeyDate_spec l2 h2
    rw [he1, he2]
    have hm2' : e2 ∈ x :: xs := hp.mem_iff.mpr hm2
    have hm1' : e1 ∈ l2 := hp.mem_iff.mp hm1
    have : e1 = e2 := key_inj hnd hm1 hm2' (le_antisymm (hb1 e2 hm2') (hb2 e1 hm1'))
    rw [this]

/-! ## Helper lemmas: max/min by value with the panicking comparator -/

theorem maxByGo_noNaN (l : List F64) :
    ∀ a : ℚ, (∀ x ∈ l, x ≠ F64.nan) →
    ∃ q, maxByGo (.val a) l = .ok (.val q) ∧ (F64.val q ∈ (F64.val a) :: l) ∧
      ∀ x ∈ (F64.val a) :: l, fle x (.val q) = true := by
  induction l with
  | nil =>
    intro a _
    exact ⟨a, rfl, by simp, by intro x hx; simp at hx; simp [hx, fle]⟩
  | cons x xs ih =>
    intro a hnn
    obtain ⟨b, rfl⟩ : ∃ b, x = F64.val b := by
      cases hx : x with
      | val b => exact ⟨b, rfl⟩
      | nan => exact absurd hx (hnn x (List.mem_cons_self _ _))
    have hstep : maxByGo (.val a) (.val b :: xs) = maxByGo (.val (max a b)) xs := by
      simp [maxByGo, maxByStep_val]
    obtain ⟨q, hq, hmem, hb⟩ := ih (max a b) (fun y hy => hnn y (List.mem_cons_of_mem _ hy))
    refine ⟨q, by rw [hstep, hq], ?_, ?_⟩
    · rcases List.mem_cons.mp hmem with h | h
      · rcases max_choice a b with hc | hc <;> rw [hc] at h
        · simp [h]
        · simp [h]
      · simp [h]
    · intro y hy
      have hmq : max a b ≤ q := fle_val.mp (hb _ (List.mem_cons_self _ _))
      rcases List.mem_cons.mp hy with rfl | h1
      · exact fle_val.mpr (le_trans (le_max_left a b) hmq)
      · rcases List.mem_cons.mp h1 with rfl | h2
        · exact fle_val.mpr (le_trans (le_max_right a b) hmq)
        · exact hb y (List.mem_cons_of_mem _ h2)

theorem maxByF_noNaN (l : List F64) (hl : l ≠ []) (hnn : ∀ x ∈ l, x ≠ F64.nan) :
    ∃ q, maxByF l = .ok (some (.val q)) ∧ F64.val q ∈ l ∧
      ∀ x ∈ l, fle x (.val q) = true := by
  cases l with
  | nil => exact absurd rfl hl
  | cons x xs =>
    obtain ⟨a, rfl⟩ : ∃ a, x = F64.val a := by
      cases hx : x with
      | val b => exact ⟨b, rfl⟩
      | nan => exact absurd hx (hnn x (List.mem_cons_self _ _))
    obtain ⟨q, hq, hmem, hb⟩ := maxByGo_noNaN xs a
      (fun y hy => hnn y (List.mem_cons_of_mem _ hy))
    exact ⟨q, by simp [maxByF, hq], hmem, hb⟩

theorem minByGo_noNaN (l : List F64) :
    ∀ a : ℚ, (∀ x ∈ l, x ≠ F64.nan) →
    ∃ q, minByGo (.val a) l = .ok (.val q) ∧ (F64.val q ∈ (F64.val a) :: l) ∧
      ∀ x ∈ (F64.val a) :: l, fle (.val q) x = true := by
  induction l with
  | nil =>
    intro a _
    exact ⟨a, rfl, by simp, by intro x hx; simp at hx; simp [hx, fle]⟩
  | cons x xs ih =>
    intro a hnn
    obtain ⟨b, rfl⟩ : ∃ b, x = F64.val b := by
      cases hx : x with
      | val b => exact ⟨b, rfl⟩
      | nan => exact absurd hx (hnn x (List.mem_cons_self _ _))
    have hstep : minByGo (.val a) (.val b :: xs) = minByGo (.val (min a b)) xs := by
      simp [minByGo, minByStep_val]
    obtain ⟨q, hq, hmem, hb⟩ := ih (min a b) (fun y hy => hnn y (List.mem_cons_of_mem _ hy))
    refine ⟨q, by rw [hstep, hq], ?_, ?_⟩
    · rcases List.mem_cons.mp hmem with h | h
      · rcases min_choice a b with hc | hc <;> rw [hc] at h
        · simp [h]
        · simp [h]
      · simp [h]
    · intro y hy
      have hmq : q ≤ min a b := fle_val.mp (hb _ (List.mem_cons_self _ _))
      rcases List.mem_cons.mp hy with rfl | h1
      · exact fle_val.mpr (le_trans hmq (min_le_left a b))
      · rcases List.mem_cons.mp h1 with rfl | h2
        · exact fle_val.mpr (le_trans hmq (min_le_right a b))
        · exact hb y (List.mem_cons_of_mem _ h2)

theorem minByF_noNaN (l : List F64) (hl : l ≠ []) (hnn : ∀ x ∈ l, x ≠ F64.nan) :
    ∃ q, minByF l = .ok (some (.val q)) ∧ F64.val q ∈ l ∧
      ∀ x ∈ l, fle (.val q) x = true := by
  cases l with
  | nil => exact absurd rfl hl
  | cons x xs =>
    obtain ⟨a, rfl⟩ : ∃ a, x = F64.val a := by
      cases hx : x with
      | val b => exact ⟨b, rfl⟩
      | nan => exact absurd hx (hnn x (List.mem_cons_self _ _))
    obtain ⟨q, hq, hmem, hb⟩ := minByGo_noNaN xs a
      (fun y hy => hnn y (List.mem_cons_of_mem _ hy))
    exact ⟨q, by simp [minByF, hq], hmem, hb⟩

theorem maxByStep_nan_left (x : F64) : maxByStep .nan x = .error .nonComparable := by
  simp [maxByStep, f64_ord_panic_nan_left]

theorem maxByStep_nan_right (x : F64) : maxByStep x .nan = .error .nonComparable := by
  simp [maxByStep, f64_ord_panic_nan_right]

theorem minByStep_nan_left (x : F64) : minByStep .nan x = .error .nonComparable := by
  simp [minByStep, f64_ord_panic_nan_left]

theorem minByStep_nan_right (x : F64) : minByStep x .nan = .error .nonComparable := by
  simp [minByStep, f64_ord_panic_nan_right]

theorem maxByGo_nan_mem (l : List F64) :
    ∀ acc, F64.nan ∈ l → maxByGo acc l = .error .nonComparable := by
  induction l with
  | nil => intro acc h; simp at h
  | cons x xs ih =>
    intro acc h
    cases acc with
    | nan => simp [maxByGo, maxByStep_nan_left]
    | val a =>
      cases x with
      | nan => simp [maxByGo, maxByStep_nan_right]
      | val b =>
        have h' : F64.nan ∈ xs := by
          rcases List.mem_cons.mp h with h1 | h1
          · exact absurd h1.symm (by simp)
          · exact h1
        simp [maxByGo, maxByStep_val, ih _ h']

theorem minByGo_nan_mem (l : List F64) :
    ∀ acc, F64.nan ∈ l → minByGo acc l = .error .nonComparable := by
  induction l with
  | nil => intro acc h; simp at h
  | cons x xs ih =>
    intro acc h
    cases acc with
    | nan => simp [minByGo, minByStep_nan_left]
    | val a =>
      cases x with
      | nan => simp [minByGo, minByStep_nan_right]
      | val b =>
        have h' : F64.nan ∈ xs := by
          rcases List.mem_cons.mp h with h1 | h1
          · exact absurd h1.symm (by simp)
          · exact h1
        simp [minByGo, minByStep_val, ih _ h']

/-- With at least two elements, a NaN anywhere makes `max_by(f64_ord_panic)`
panic. -/
theorem maxByF_nan (l : List F64) (hn : F64.nan ∈ l) (hlen : 2 ≤ l.length) :
    maxByF l = .error .nonComparable := by
  cases l with
  | nil => simp at hn
  | cons x xs =>
    cases xs with
    | nil => simp at hlen
    | cons y ys =>
      rcases List.mem_cons.mp hn with h1 | h1
      · subst h1
        simp [maxByF, maxByGo, maxByStep_nan_left]
      · simp [maxByF, maxByGo_nan_mem _ _ h1]

theorem minByF_nan (l : List F64) (hn : F64.nan ∈ l) (hlen : 2 ≤ l.length) :
    minByF l = .error .nonComparable := by
  cases l with
  | nil => simp at hn
  | cons x xs =>
    cases xs with
    | nil => simp at hlen
    | cons y ys =>
      rcases List.mem_cons.mp hn with h1 | h1
      · subst h1
        simp [minByF, minByGo, minByStep_nan_left]
      · simp [minByF, minByGo_nan_mem _ _ h1]

/-- `max_by(f64_ord_panic)` depends only on the multiset of values iterated:
its result is the same for any two iteration orders. -/
theorem maxByF_perm {l1 l2 : List F64} (hp : l1.Perm l2) : maxByF l1 = maxByF l2 := by
  cases hl1 : l1 with
  | nil =>
    subst hl1
    rw [hp.symm.eq_nil]
  | cons x xs =>
    subst hl1
    have hl2 : l2 ≠ [] := by
      intro h
      rw [h] at hp
      exact absurd hp.eq_nil (by simp)
    by_cases hn : F64.nan ∈ x :: xs
    · by_cases hlen : 2 ≤ (x :: xs : List F64).length
      · rw [maxByF_nan _ hn hlen, maxByF_nan _ (hp.mem_iff.mp hn) (hp.length_eq ▸ hlen)]
      · have hxs : xs = [] := by
          cases xs with
          | nil => rfl
          | cons y ys => simp at hlen
        subst hxs
        rw [(List.singleton_perm.mp hp).symm]
    · have hnn : ∀ y ∈ x :: xs, y ≠ F64.nan := by
        intro y hy he
        exact hn (he ▸ hy)
      have hnn2 : ∀ y ∈ l2, y ≠ F64.nan := fun y hy => hnn y (hp.mem_iff.mpr hy)
      obtain ⟨q1, he1, hm1, hb1⟩ := maxByF_noNaN _ (by simp) hnn
      obtain ⟨q2, he2, hm2, hb2⟩ := maxByF_noNaN l2 hl2 hnn2
      have h12 : q1 ≤ q2 := fle_val.mp (hb2 _ (hp.mem_iff.mp hm1))
      have h21 : q2 ≤ q1 := fle_val.mp (hb1 _ (hp.mem_iff.mpr hm2))
      rw [he1, he2, le_antisymm h12 h21]

/-- `min_by(f64_ord_panic)` depends only on the multiset of values iterated. -/
theorem minByF_perm {l1 l2 : List F64} (hp : l1.Perm l2) : minByF l1 = minByF l2 := by
  cases hl1 : l1 with
  | nil =>
    subst hl1
    rw [hp.symm.eq_nil]
  | cons x xs =>
    subst hl1
    have hl2 : l2 ≠ [] := by
      intro h
      rw [h] at hp
      exact absurd hp.eq_nil (by simp)
    by_cases hn : F64.nan ∈ x :: xs
    · by_cases hlen : 2 ≤ (x :: xs : List F64).length
      · rw [minByF_nan _ hn hlen, minByF_nan _ (hp.mem_iff.mp hn) (hp.length_eq ▸ hlen)]
      · have hxs : xs = [] := by
          cases xs with
          | nil => rfl
          | cons y ys => simp at hlen
        subst hxs
        rw [(List.singleton_perm.mp hp).symm]
    · have hnn : ∀ y ∈ x :: xs, y ≠ F64.nan := by
        intro y hy he
        exact hn (he ▸ hy)
      have hnn2 : ∀ y ∈ l2, y ≠ F64.nan := fun y hy => hnn y (hp.mem_iff.mpr hy)
      obtain ⟨q1, he1, hm1, hb1⟩ := minByF_noNaN _ (by simp) hnn
      obtain ⟨q2, he2, hm2, hb2⟩ := minByF_noNaN l2 hl2 hnn2
      have h12 : q2 ≤ q1 := fle_val.mp (hb2 _ (hp.mem_iff.mp hm1))
      have h21 : q1 ≤ q2 := fle_val.mp (hb1 _ (hp.mem_iff.mpr hm2))
      rw [he1, he2, le_antisymm h21 h12]

/-! ## Helper lemmas: evaluating `summary_for_equity` -/

theorem summary_for_equity_eq (fetch : Symbol → DailyOutputSize → TimeSeries)
    (symbol : Symbol) (period : TimePeriod) (today : ℤ)
    (eL eE : ℤ × TimeSeriesDay) (hM lM : F64)
    (h1 : maxByKeyDate (filteredSeries (fetch symbol .Full) period today) = some eL)
    (h2 : minByKeyDate (filteredSeries (fetch symbol .Full) period today) = some eE)
    (h3 : maxByF ((filteredSeries (fetch symbol .Full) period today).map (fun e => e.2.high)) =
      .ok (some hM))
    (h4 : minByF ((filteredSeries (fetch symbol .Full) period today).map (fun e => e.2.low)) =
      .ok (some lM)) :
    summary_for_equity fetch symbol period today = .ok ⟨eL.2.close, eE.2.close, hM, lM⟩ := by
  simp [summary_for_equity, h1, h2, h3, h4, unwrapO, Bind.bind, Except.bind, Pure.pure,
    Except.pure]

/-- `summary_for_equity` is determined by the four reductions of the filtered
series. -/
theorem summary_for_equity_congr (fetch1 fetch2 : Symbol → DailyOutputSize → TimeSeries)
    (symbol : Symbol) (period : TimePeriod) (today : ℤ)
    (h1 : maxByKeyDate (filteredSeries (fetch1 symbol .Full) period today) =
      maxByKeyDate (filteredSeries (fetch2 symbol .Full) period today))
    (h2 : minByKeyDate (filteredSeries (fetch1 symbol .Full) period today) =
      minByKeyDate (filteredSeries (fetch2 symbol .Full) period today))
    (h3 : maxByF ((filteredSeries (fetch1 symbol .Full) period today).map (fun e => e.2.high)) =
      maxByF ((filteredSeries (fetch2 symbol .Full) period today).map (fun e => e.2.high)))
    (h4 : minByF ((filteredSeries (fetch1 symbol .Full) period today).map (fun e => e.2.low)) =
      minByF ((filteredSeries (fetch2 symbol .Full) period today).map (fun e => e.2.low))) :
    summary_for_equity fetch1 symbol period today =
      summary_for_equity fetch2 symbol period today := by
  simp only [summary_for_equity]
  rw [h1, h2, h3, h4]

/-! ## Helper lemmas: parsing -/

/-- A day record deserializes only if every required field is present and
numeric. -/
theorem day_deserialize_fields {fields : List (String × Json)} {d : TimeSeriesDay}
    (h : TimeSeriesDay.deserialize (.obj fields) = some d) :
    ∀ f ∈ requiredDayFields, (numField fields f).isSome = true := by
  intro f hf
  cases h1 : numField fields "1. open" with
  | none => simp [TimeSeriesDay.deserialize, h1] at h
  | some v1 =>
  cases h2 : numField fields "2. high" with
  | none => simp [TimeSeriesDay.deserialize, h1, h2] at h
  | some v2 =>
  cases h3 : numField fields "3. low" with
  | none => simp [TimeSeriesDay.deserialize, h1, h2, h3] at h
  | some v3 =>
  cases h4 : numField fields "4. close" with
  | none => simp [TimeSeriesDay.deserialize, h1, h2, h3, h4] at h
  | some v4 =>
  cases h5 : numField fields "5. adjusted close" with
  | none => simp [TimeSeriesDay.deserialize, h1, h2, h3, h4, h5] at h
  | some v5 =>
  cases h6 : numField fields "6. volume" with
  | none => simp [TimeSeriesDay.deserialize, h1, h2, h3, h4, h5, h6] at h
  | some v6 =>
  cases h7 : numField fields "7. dividend amount" with
  | none => simp [TimeSeriesDay.deserialize, h1, h2, h3, h4, h5, h6, h7] at h
  | some v7 =>
  cases h8 : numField fields "8. split coefficient" with
  | none => simp [TimeSeriesDay.deserialize, h1, h2, h3, h4, h5, h6, h7, h8] at h
  | some v8 =>
    simp only [requiredDayFields, List.mem_cons, List.not_mem_nil, or_false] at hf
    rcases hf with rfl | rfl | rfl | rfl | rfl | rfl | rfl | rfl <;>
      simp [h1, h2, h3, h4, h5, h6, h7, h8]

/-- One undeserializable record fails the whole time-series map. -/
theorem parseEntries_fail (entries : List (String × Json))
    (hbad : ∃ p ∈ entries, TimeSeriesDay.deserialize p.2 = none) :
    parseEntries entries = none := by
  induction entries with
  | nil => simp at hbad
  | cons kv rest ih =>
    obtain ⟨k, v⟩ := kv
    obtain ⟨p, hp, hnone⟩ := hbad
    cases hd : parseDate k with
    | none => simp [parseEntries, hd]
    | some d0 =>
      cases hday : TimeSeriesDay.deserialize v with
      | none => simp [parseEntries, hd, hday]
      | some day =>
        rcases List.mem_cons.mp hp with rfl | hp'
        · rw [hnone] at hday
          exact absurd hday (by simp)
        · simp [parseEntries, hd, hday, ih ⟨p, hp', hnone⟩]

/-! ## Claim theorems -/

/-- **C1**: whenever the filtered series is non-empty and its retained highs
and lows are not NaN, `summary_for_equity` succeeds with `min_price` at most
every retained low, `max_price` at least every retained high,
`earliest_price` the close of a minimum-date retained entry and
`latest_price` the close of a maximum-date retained entry; and on the
two-entry scenario series under `AllTime` it returns
`{latest = 120, earliest = 100, max = 125, min = 90}`. -/
theorem summary_bounds_and_scenario :
    (∀ (fetch : Symbol → DailyOutputSize → TimeSeries) (symbol : Symbol)
       (period : TimePeriod) (today : ℤ),
      filteredSeries (fetch symbol .Full) period today ≠ [] →
      (∀ e ∈ filteredSeries (fetch symbol .Full) period today,
        e.2.high ≠ F64.nan ∧ e.2.low ≠ F64.nan) →
      ∃ s, summary_for_equity fetch symbol period today = .ok s ∧
        (∀ e ∈ filteredSeries (fetch symbol .Full) period today,
          fle s.min_price e.2.low = true ∧ fle e.2.high s.max_price = true) ∧
        (∃ eMin, eMin ∈ filteredSeries (fetch symbol .Full) period today ∧
          (∀ e ∈ filteredSeries (fetch symbol .Full) period today, eMin.1 ≤ e.1) ∧
          s.earliest_price = eMin.2.close) ∧
        (∃ eMax, eMax ∈ filteredSeries (fetch symbol .Full) period today ∧
          (∀ e ∈ filteredSeries (fetch symbol .Full) period today, e.1 ≤ eMax.1) ∧
          s.latest_price = eMax.2.close)) ∧
    summary_for_equity (fun _ _ => scenarioSeries) (Symbol.new "ACME") .AllTime 19732 =
      .ok ⟨.val 120, .val 100, .val 125, .val 90⟩ := by
  constructor
  · intro fetch symbol period today hne hnn
    obtain ⟨eL, heL, hmL, hbL⟩ :=
      maxByKeyDate_spec (filteredSeries (fetch symbol .Full) period today) hne
    obtain ⟨eE, heE, hmE, hbE⟩ :=
      minByKeyDate_spec (filteredSeries (fetch symbol .Full) period today) hne
    have hneH : (filteredSeries (fetch symbol .Full) period today).map
        (fun e => e.2.high) ≠ [] := by simpa using hne
    have hneL : (filteredSeries (fetch symbol .Full) period today).map
        (fun e => e.2.low) ≠ [] := by simpa using hne
    have hnnH : ∀ x ∈ (filteredSeries (fetch symbol .Full) period today).map
        (fun e => e.2.high), x ≠ F64.nan := by
      intro x hx
      obtain ⟨e, he, rfl⟩ := List.mem_map.mp hx
      exact (hnn e he).1
    have hnnL : ∀ x ∈ (filteredSeries (fetch symbol .Full) period today).map
        (fun e => e.2.low), x ≠ F64.nan := by
      intro x hx
      obtain ⟨e, he, rfl⟩ := List.mem_map.mp hx
      exact (hnn e he).2
    obtain ⟨qH, hH, _, hbH⟩ := maxByF_noNaN _ hneH hnnH
    obtain ⟨qL, hL, _, hbLo⟩ := minByF_noNaN _ hneL hnnL
    refine ⟨⟨eL.2.close, eE.2.close, .val qH, .val qL⟩,
      summary_for_equity_eq fetch symbol period today eL eE _ _ heL heE hH hL,
      ?_, ⟨eE, hmE, hbE, rfl⟩, ⟨eL, hmL, hbL, rfl⟩⟩
    intro e he
    exact ⟨hbLo _ (List.mem_map_of_mem _ he), hbH _ (List.mem_map_of_mem _ he)⟩
  · rfl

/-- Witness for **C1** at the scenario series under the `Month` period. -/
theorem summary_bounds_and_scenario_witness :
    ∃ s, summary_for_equity (fun _ _ => scenarioSeries) (Symbol.new "ACME") .Month 19740 =
      .ok s ∧ fle s.min_price (F64.val 95) = true := by
  obtain ⟨s, hs, hb, _, _⟩ := summary_bounds_and_scenario.1 (fun _ _ => scenarioSeries)
    (Symbol.new "ACME") .Month 19740 (by decide) (by decide)
  exact ⟨s, hs, (hb (19732, scenarioDay2) (by decide)).1⟩

/-- **C2**: the filter inside `summary_for_equity` retains exactly the
entries whose date satisfies `date + window ≥ today` (window 30 for Month,
365 for Year, everything for AllTime); an entry dated `today − 30` is kept
under Month and one dated `today − 31` is dropped. -/
theorem filter_window_semantics :
    (∀ (ts : TimeSeries) (period : TimePeriod) (today : ℤ) (e : ℤ × TimeSeriesDay),
      e ∈ filteredSeries ts period today ↔ e ∈ ts ∧ keepEntry period today e.1 = true) ∧
    (∀ today date : ℤ,
      keepEntry .Month today date = decide (date + 30 ≥ today) ∧
      keepEntry .Year today date = decide (date + 365 ≥ today) ∧
      keepEntry .AllTime today date = true) ∧
    (∀ today : ℤ,
      keepEntry .Month today (today - 30) = true ∧
      keepEntry .Month today (today - 31) = false) := by
  refine ⟨?_, ?_, ?_⟩
  · intro ts period today e
    simp [filteredSeries, List.mem_filter]
  · intro today date
    exact ⟨rfl, rfl, rfl⟩
  · intro today
    constructor
    · simp only [keepEntry, decide_eq_true_eq]
      omega
    · simp only [keepEntry, decide_eq_false_iff_not]
      omega

/-- Witness for **C2** at a concrete entry and window. -/
theorem filter_window_semantics_witness :
    ((19732 : ℤ), scenarioDay2) ∈ filteredSeries scenarioSeries .Month 19740 ↔
      ((19732 : ℤ), scenarioDay2) ∈ scenarioSeries ∧
        keepEntry .Month 19740 (19732 : ℤ) = true :=
  filter_window_semantics.1 scenarioSeries .Month 19740 (19732, scenarioDay2)

/-- **C3**: on a non-empty fetched series, `get_latest_price_for_equity`
returns the close of an entry whose date is not less than any other entry's
date. -/
theorem latest_close_is_max_date (fetch : Symbol → DailyOutputSize → TimeSeries)
    (symbol : Symbol) (hne : fetch symbol .Compact ≠ []) :
    ∃ e, e ∈ fetch symbol .Compact ∧
      get_latest_price_for_equity fetch symbol = .ok e.2.close ∧
      ∀ x ∈ fetch symbol .Compact, x.1 ≤ e.1 := by
  obtain ⟨e, he, hm, hb⟩ := maxByKeyDate_spec _ hne
  exact ⟨e, hm, by simp [get_latest_price_for_equity, he, unwrapO], hb⟩

/-- Witness for **C3** at the scenario series. -/
theorem latest_close_is_max_date_witness :
    ∃ e, e ∈ scenarioSeries ∧
      get_latest_price_for_equity (fun _ _ => scenarioSeries) (Symbol.new "ACME") =
        .ok e.2.close ∧
      ∀ x ∈ scenarioSeries, x.1 ≤ e.1 :=
  latest_close_is_max_date (fun _ _ => scenarioSeries) (Symbol.new "ACME") (by decide)

/-- **C4** (code divergence): with an empty filtered series,
`summary_for_equity` panics on `Option::unwrap` — modelled as the
`.error .unwrapNone` abort — instead of returning a typed empty-result
failure; indeed `ApiError`, the library's only error type, has no such
variant (its sole variant is `Reqwest`). -/
theorem summary_empty_filter_panics :
    summary_for_equity (fun _ _ => []) (Symbol.new "ACME") .AllTime 0 =
      .error .unwrapNone ∧
    summary_for_equity (fun _ _ => [((-40 : ℤ), sampleDay 1 2 1 1)]) (Symbol.new "ACME")
      .Month 0 = .error .unwrapNone ∧
    filteredSeries [((-40 : ℤ), sampleDay 1 2 1 1)] .Month 0 = [] ∧
    ∀ e : ApiError, e = .Reqwest :=
  ⟨rfl, rfl, rfl, fun e => by cases e; rfl⟩

/-- **C5** (code divergence): a NaN `high` in a filtered series of two
entries makes the max reduction panic through `f64_ord_panic` — modelled as
the `.error .nonComparable` abort — instead of surfacing a typed
non-orderable-value failure; `ApiError` has no such variant. -/
theorem summary_nan_panics :
    summary_for_equity (fun _ _ => [((0 : ℤ), nanHighDay), ((1 : ℤ), sampleDay 1 2 1 1)])
      (Symbol.new "ACME") .AllTime 1 = .error .nonComparable ∧
    ∀ e : ApiError, e = .Reqwest :=
  ⟨rfl, fun e => by cases e; rfl⟩

/-- **C7**: with the same time-series data (any two iteration orders of the
same entries, dates unique), the same period and the same `today` anchor,
`summary_for_equity` produces identical results: the aggregation is a
deterministic pure function of its inputs despite iterating an unordered
map. -/
theorem summary_perm_invariant (fetch1 fetch2 : Symbol → DailyOutputSize → TimeSeries)
    (symbol : Symbol) (period : TimePeriod) (today : ℤ)
    (hp : (fetch1 symbol .Full).Perm (fetch2 symbol .Full))
    (hnd : ((fetch1 symbol .Full).map Prod.fst).Nodup) :
    summary_for_equity fetch1 symbol period today =
      summary_for_equity fetch2 symbol period today := by
  have hpf : (filteredSeries (fetch1 symbol .Full) period today).Perm
      (filteredSeries (fetch2 symbol .Full) period today) := hp.filter _
  have hndf : ((filteredSeries (fetch1 symbol .Full) period today).map Prod.fst).Nodup :=
    hnd.sublist ((List.filter_sublist _).map Prod.fst)
  exact summary_for_equity_congr fetch1 fetch2 symbol period today
    (maxByKeyDate_perm hpf hndf) (minByKeyDate_perm hpf hndf)
    (maxByF_perm (hpf.map _)) (minByF_perm (hpf.map _))

/-- Witness for **C7**: the scenario series and its reverse iteration order. -/
theorem summary_perm_invariant_witness :
    summary_for_equity (fun _ _ => scenarioSeries) (Symbol.new "ACME") .AllTime 19732 =
      summary_for_equity (fun _ _ => scenarioSeries.reverse) (Symbol.new "ACME")
        .AllTime 19732 :=
  summary_perm_invariant (fun _ _ => scenarioSeries) (fun _ _ => scenarioSeries.reverse)
    (Symbol.new "ACME") .AllTime 19732 (by decide) (by decide)

/-- Counterexample for **C8**: both `Symbol` constructors happily produce a
`Symbol` whose underlying string is empty — the non-emptiness invariant does
not hold. -/
theorem symbol_empty_constructible :
    (Symbol.new "").str = "" ∧ (Symbol.fromString "").str = "" := ⟨rfl, rfl⟩

/-- **C8** (amended): the `Symbol` constructors perform no validation — they
wrap exactly the given string (so an empty `Symbol` is constructible) — and
the wrapped string is passed verbatim as the `symbol` query parameter. -/
theorem symbol_verbatim_unvalidated :
    ∀ s : String, (Symbol.new s).str = s ∧ Symbol.fromString s = Symbol.new s ∧
      ∀ (apikey : String) (size : DailyOutputSize),
        List.lookup "symbol" (queryParams apikey (Symbol.new s) size) = some s := by
  intro s
  exact ⟨rfl, rfl, fun apikey size => rfl⟩

/-- **C9**: any parsed invocation whose subcommand is not `latest-price` or
`summary` falls to the catch-all arm of `main`, which prints
`"Command not recognised"` and returns normally — exit status 0, not
non-zero. -/
theorem cli_unrecognised_prints_zero_exit (fetch : Symbol → DailyOutputSize → TimeSeries)
    (today : ℤ) (name : String) (arg : Option String)
    (h1 : name ≠ "latest-price") (h2 : name ≠ "summary") :
    mainRun fetch today (name, arg) =
      { calls := [], result := .ok ([.commandNotRecognised], 0) } := by
  unfold mainRun
  split <;> simp_all

/-- Witness for **C9** at a concrete unrecognised subcommand. -/
theorem cli_unrecognised_prints_zero_exit_witness :
    mainRun (fun _ _ => []) 0 ("portfolio-report", none) =
      { calls := [], result := .ok ([.commandNotRecognised], 0) } :=
  cli_unrecognised_prints_zero_exit (fun _ _ => []) 0 "portfolio-report" none
    (by decide) (by decide)

/-- **C10**: the `summary` subcommand always calls `summary_for_equity` with
the `Year` period (no reachable call uses `Month` or `AllTime`), while
`get_latest_price_for_equity` observes only the `Compact` fetch and
`summary_for_equity` only the `Full` fetch. -/
theorem cli_periods_and_output_sizes :
    (∀ (fetch : Symbol → DailyOutputSize → TimeSeries) (today : ℤ) (symbol : String),
      (mainRun fetch today ("summary", some symbol)).calls =
        [.summaryCall symbol .Year]) ∧
    (∀ (fetch : Symbol → DailyOutputSize → TimeSeries) (today : ℤ)
       (sub : String × Option String) (s : String) (p : TimePeriod),
      LibCall.summaryCall s p ∈ (mainRun fetch today sub).calls → p = .Year) ∧
    (∀ (fetch1 fetch2 : Symbol → DailyOutputSize → TimeSeries) (symbol : Symbol),
      fetch1 symbol .Compact = fetch2 symbol .Compact →
      get_latest_price_for_equity fetch1 symbol =
        get_latest_price_for_equity fetch2 symbol) ∧
    (∀ (fetch1 fetch2 : Symbol → DailyOutputSize → TimeSeries) (symbol : Symbol)
       (period : TimePeriod) (today : ℤ),
      fetch1 symbol .Full = fetch2 symbol .Full →
      summary_for_equity fetch1 symbol period today =
        summary_for_equity fetch2 symbol period today) := by
  refine ⟨?_, ?_, ?_, ?_⟩
  · intro fetch today symbol
    rfl
  · intro fetch today sub s p hmem
    obtain ⟨name, arg⟩ := sub
    unfold mainRun at hmem
    split at hmem <;> simp_all
  · intro fetch1 fetch2 symbol h
    unfold get_latest_price_for_equity
    rw [h]
  · intro fetch1 fetch2 symbol period today h
    simp only [summary_for_equity]
    rw [h]

/-- Witness for **C10**: the size-observation parts applied at concrete
fetchers that agree only on the observed output size, and the period part at
a concrete `summary` invocation. -/
theorem cli_periods_and_output_sizes_witness :
    TimePeriod.Year = TimePeriod.Year ∧
    get_latest_price_for_equity (fun _ _ => scenarioSeries) (Symbol.new "ACME") =
      get_latest_price_for_equity
        (fun _ size => match size with | .Compact => scenarioSeries | .Full => [])
        (Symbol.new "ACME") ∧
    summary_for_equity (fun _ _ => scenarioSeries) (Symbol.new "ACME") .Year 19732 =
      summary_for_equity
        (fun _ size => match size with | .Full => scenarioSeries | .Compact => [])
        (Symbol.new "ACME") .Year 19732 :=
  ⟨cli_periods_and_output_sizes.2.1 (fun _ _ => []) 0 ("summary", some "ACME") "ACME"
      .Year (by decide),
   cli_periods_and_output_sizes.2.2.1 (fun _ _ => scenarioSeries)
      (fun _ size => match size with | .Compact => scenarioSeries | .Full => [])
      (Symbol.new "ACME") rfl,
   cli_periods_and_output_sizes.2.2.2 (fun _ _ => scenarioSeries)
      (fun _ size => match size with | .Full => scenarioSeries | .Compact => [])
      (Symbol.new "ACME") .Year 19732 rfl⟩

/-- **C6**: string-encoded numeric fields are coerced to numbers (a record
whose `volume` is the JSON string `"12345"` parses with volume 12345); the
whole response fails to parse when the `"Time Series (Daily)"` field is
absent; and a non-numeric string in any required field fails the record —
and, through the record, the whole response. -/
theorem parse_coercion_and_failures :
    (TimeSeriesDay.deserialize sampleDayJson).map (fun d => d.volume) =
      some (F64.val 12345) ∧
    (∀ fields : List (String × Json),
      List.lookup "Time Series (Daily)" fields = none →
      TimeSeriesDailyResponse.deserialize (.obj fields) = none) ∧
    (∀ (fields : List (String × Json)) (f s : String),
      f ∈ requiredDayFields → List.lookup f fields = some (.str s) →
      parseDecimal s = none →
      TimeSeriesDay.deserialize (.obj fields) = none) ∧
    (∀ (rfields entries : List (String × Json)),
      List.lookup "Time Series (Daily)" rfields = some (.obj entries) →
      (∃ p ∈ entries, TimeSeriesDay.deserialize p.2 = none) →
      TimeSeriesDailyResponse.deserialize (.obj rfields) = none) := by
  refine ⟨rfl, ?_, ?_, ?_⟩
  · intro fields h
    cases hm : List.lookup "Meta Data" fields <;>
      simp [TimeSeriesDailyResponse.deserialize, hm, h]
  · intro fields f s hf hl hp
    have hnf : numField fields f = none := by
      simp [numField, hl, deserialize_number_from_string, hp]
    cases hd : TimeSeriesDay.deserialize (.obj fields) with
    | none => rfl
    | some d =>
      have := day_deserialize_fields hd f hf
      rw [hnf] at this
      exact absurd this (by simp)
  · intro rfields entries hts hbad
    cases hm : List.lookup "Meta Data" rfields with
    | none => simp [TimeSeriesDailyResponse.deserialize, hm]
    | some md =>
      simp [TimeSeriesDailyResponse.deserialize, hm, hts, parseEntries_fail entries hbad]

/-- Witness for **C6**: the response without a time-series field fails, and a
record whose `volume` is the non-numeric string `"abc"` fails. -/
theorem parse_coercion_and_failures_witness :
    TimeSeriesDailyResponse.deserialize (.obj []) = none ∧
    TimeSeriesDay.deserialize badVolumeDayJson = none :=
  ⟨parse_coercion_and_failures.2.1 [] rfl,
   parse_coercion_and_failures.2.2.1
     [("1. open", .str "100.0"), ("2. high", .str "110"), ("3. low", .str "90"),
      ("4. close", .str "100"), ("5. adjusted close", .str "99.5"),
      ("6. volume", .str "abc"), ("7. dividend amount", .num 0),
      ("8. split coefficient", .str "1.0")]
     "6. volume" "abc" (by simp [requiredDayFields]) rfl rfl⟩

end Portfolio
